import Mathlib

/-!
Verification of the retail-scraper price-comparison core
(`Price-Comparison-Tool/dynamic-price-compare-long.py` and
`dynamic-price-compare-short.py`) against its natural-language
specification.

The embedding works over exact rationals: Python floats are idealized as
`ℚ`, and Python's `round(x, d)` (round-half-to-even on the scaled value)
is modelled exactly on `ℚ`.  Pandas tables are modelled as `List`s of
records; a missing cell (`NaN`) is `Option.none`.
-/

/-- Round-half-to-even of a rational to an integer, as Python's `round`
does on the (idealized, exact) value. -/
def rhe (x : ℚ) : ℤ :=
  if x - ⌊x⌋ < 1/2 then ⌊x⌋
  else if 1/2 < x - ⌊x⌋ then ⌊x⌋ + 1
  else if ⌊x⌋ % 2 = 0 then ⌊x⌋ else ⌊x⌋ + 1

/-- Python `round(x, d)`: round `x` to `d` decimal places, half to even. -/
def roundTo (d : Nat) (x : ℚ) : ℚ := (rhe (x * 10 ^ d) : ℚ) / 10 ^ d

/-!
Model of `difflib.SequenceMatcher(None, a, b).ratio()` for short strings
(under 200 characters, so difflib's autojunk heuristic never fires and
the junk set is empty).  `suffLenF` is difflib's `j2len`
dynamic-programming value: the length of the common block of `a` and `b`
ending at positions `i`, `j` and not extending left of `alo`/`blo`.  The
first argument is recursion fuel; `i + 1` steps always suffice since `i`
decreases by one each step.
-/

def suffLenF (a b : List Char) (alo blo : Nat) : Nat → Nat → Nat → Nat
  | 0, _, _ => 0
  | fuel + 1, i, j =>
    if alo ≤ i ∧ blo ≤ j ∧ i < a.length ∧ j < b.length ∧ a.getD i ' ' = b.getD j ' ' then
      (if alo < i ∧ blo < j then suffLenF a b alo blo fuel (i - 1) (j - 1) else 0) + 1
    else 0

/-- Length of the common block of `a` and `b` ending at `(i, j)`, clipped
at `alo`/`blo` on the left. -/
def suffLen (a b : List Char) (alo blo i j : Nat) : Nat :=
  suffLenF a b alo blo (i + 1) i j

/-- The scan order of difflib's `find_longest_match` double loop:
`i` ascending over `[alo, ahi)`, then `j` ascending over `[blo, bhi)`. -/
def flmPairs (alo ahi blo bhi : Nat) : List (Nat × Nat) :=
  (List.range' alo (ahi - alo)).flatMap fun i =>
    (List.range' blo (bhi - blo)).map fun j => (i, j)

/-- One step of difflib's best-block scan: a candidate block replaces the
current best only when strictly longer, so the first maximal block in
scan order wins. -/
def flmStep (a b : List Char) (alo blo : Nat) (best : Nat × Nat × Nat) (ij : Nat × Nat) :
    Nat × Nat × Nat :=
  let k := suffLen a b alo blo ij.1 ij.2
  if best.2.2 < k then (ij.1 + 1 - k, ij.2 + 1 - k, k) else best

/-- difflib `find_longest_match` on the window `[alo, ahi) × [blo, bhi)`
(no junk, no autojunk): returns `(i, j, size)` of the longest matching
block, `(alo, blo, 0)` when there is none. -/
def findLongestMatch (a b : List Char) (alo ahi blo bhi : Nat) : Nat × Nat × Nat :=
  (flmPairs alo ahi blo bhi).foldl (flmStep a b alo blo) (alo, blo, 0)

/-- Total size of difflib's matching blocks on a window: find the longest
matching block, then recurse on the pieces to its left and to its right.
The first argument is recursion fuel; each recursive call strictly
shrinks `(ahi - alo) + (bhi - blo)`, so `a.length + b.length + 1` always
suffices. -/
def matchTotalF (a b : List Char) : Nat → Nat → Nat → Nat → Nat → Nat
  | 0, _, _, _, _ => 0
  | fuel + 1, alo, ahi, blo, bhi =>
    let t := findLongestMatch a b alo ahi blo bhi
    if t.2.2 = 0 then 0
    else
      matchTotalF a b fuel alo t.1 blo t.2.1 + t.2.2 +
        matchTotalF a b fuel (t.1 + t.2.2) ahi (t.2.1 + t.2.2) bhi

/-- Sum of the sizes of all matching blocks of `a` and `b` (difflib's
`matches`). -/
def matchTotal (a b : List Char) : Nat :=
  matchTotalF a b (a.length + b.length + 1) 0 a.length 0 b.length

/-- difflib `SequenceMatcher(None, a, b).ratio() = 2 * M / T` where `M`
is the total matched size and `T` the total length; `1.0` when both
strings are empty (difflib's `_calculate_ratio`). -/
def simRatio (sa sb : String) : ℚ :=
  if sa.length + sb.length = 0 then 1
  else 2 * (matchTotal sa.data sb.data : ℚ) / ((sa.length : ℚ) + (sb.length : ℚ))

/-- `match_score` of the long pipeline (lines 37-40).  Its `pd.isna`
guard is unreachable in the pipeline: every name it ever receives went
through `astype(str)`, so both arguments are genuine strings. -/
def match_score (a b : String) : ℚ := simRatio a b

/-- Ordered pair combinations `(names[i], names[j])`, `i < j`, exactly as
built by the list comprehension in `compute_confidence` (short pipeline,
line 34). -/
def pairsOf {α : Type} : List α → List (α × α)
  | [] => []
  | x :: xs => (xs.map fun y => (x, y)) ++ pairsOf xs

/-- `compute_confidence` of the short pipeline (lines 32-36): arithmetic
mean of all pairwise similarity ratios, scaled by 100 and rounded to ONE
decimal place; `0.0` for fewer than two names. -/
def compute_confidence (names : List String) : ℚ :=
  if names.length < 2 then 0
  else
    let scores := (pairsOf names).map fun p => simRatio p.1 p.2
    roundTo 1 (scores.sum / (scores.length : ℚ) * 100)

/-- A cleaned listing row, as both pipelines hold it after preparation:
`price` is the result of `pd.to_numeric(errors="coerce")` (`none` =
`NaN`, i.e. missing or unparseable), `code` the stringified normalized
code used as the grouping key. -/
structure Listing where
  name : String
  price : Option ℚ
  code : String
  retailer : String
deriving DecidableEq, Repr

/-- A raw input row (one row of a retailer's spreadsheet, restricted to
the required columns): `price` is already the coercion result of
`pd.to_numeric` (`none` = unparseable or missing), `code` is the raw
"Normalized Code" cell (`none` = missing / `NaN`). -/
structure RawRow where
  itemName : String
  price : Option ℚ
  code : Option String
deriving DecidableEq, Repr

/-- Python `str.lower` (character-by-character, ASCII-faithful model). -/
def lowerStr (s : String) : String := ⟨s.data.map Char.toLower⟩

/-- Python `str.strip`: drop leading and trailing whitespace. -/
def stripStr (s : String) : String :=
  ⟨((s.data.dropWhile Char.isWhitespace).reverse.dropWhile Char.isWhitespace).reverse⟩

/-- `prepare` of the long pipeline (lines 42-52): drop rows whose
"Normalized Code" is missing, then stringify + strip + lower the code,
strip the item name, coerce the price. -/
def prepareLong (retailer : String) (rows : List RawRow) : List Listing :=
  rows.filterMap fun r =>
    r.code.map fun c =>
      { name := stripStr r.itemName, price := r.price, code := lowerStr (stripStr c),
        retailer := retailer }

/-- The per-retailer cleaning of the short pipeline (lines 122-126): no
dropna on the code — `astype(str)` turns a missing code (`NaN`) into the
literal string "nan" — then `.str.lower()` with no strip; the item name
is left untouched. -/
def prepareShort (retailer : String) (rows : List RawRow) : List Listing :=
  rows.map fun r =>
    { name := r.itemName, price := r.price,
      code := lowerStr (match r.code with | some c => c | none => "nan"),
      retailer := retailer }

/-- The fixed retailer enumeration, in the iteration order of
`RETAILER_FOLDERS` (long pipeline, lines 13-17). -/
def RETAILERS : List String := ["2B", "Btech", "Raneen"]

/-- The rows of `combined` sharing one normalized-code group key
(`combined.groupby("Normalized Code")`, within-group order preserved). -/
def groupOf (combined : List Listing) (code : String) : List Listing :=
  combined.filter fun l => l.code = code

/-- The distinct retailers of a group. -/
def retailersOf (g : List Listing) : List String :=
  (g.map Listing.retailer).dedup

/-- `group["Retailer"].nunique()`. -/
def nunique (g : List Listing) : Nat := (retailersOf g).length

/-- A code yields a row in the long pipeline's primary (exact-code)
output: the code occurs in `combined` and its group spans at least two
distinct retailers (lines 143-145). -/
def longEmittedMatched (combined : List Listing) (code : String) : Prop :=
  code ∈ combined.map Listing.code ∧ 2 ≤ nunique (groupOf combined code)

instance longEmittedMatchedDec (combined : List Listing) (code : String) :
    Decidable (longEmittedMatched combined code) :=
  inferInstanceAs (Decidable (_ ∈ _ ∧ 2 ≤ nunique (groupOf combined code)))

/-- `group[group["Retailer"] == retailer].iloc[0]`: the first listing of
the group belonging to a given retailer, if any (lines 149-150). -/
def firstFor (g : List Listing) (r : String) : Option Listing :=
  (g.filter fun l => l.retailer = r).head?

/-- The `prices` dict of lines 160-163 / 199-202: for each retailer in
`RETAILER_FOLDERS` order, its representative (first) listing's price when
that price is not `NaN`; insertion order is the retailer order. -/
def pricesDict (g : List Listing) : List (String × ℚ) :=
  RETAILERS.filterMap fun r =>
    (firstFor g r).bind fun l => l.price.map fun p => (r, p)

/-- Python `min` over a list of rationals (`min(prices.values())`). -/
def minList : List ℚ → Option ℚ
  | [] => none
  | x :: xs => some (xs.foldl min x)

/-- Python `min(prices, key=prices.get)`: first entry attaining the
minimal value, in insertion order. -/
def minByKey : List (String × ℚ) → Option (String × ℚ)
  | [] => none
  | p :: rest => some (rest.foldl (fun best q => if q.2 < best.2 then q else best) p)

/-- `best_price = min(prices.values()) if prices else None` (line 164). -/
def bestPriceOf (ps : List (String × ℚ)) : Option ℚ := minList (ps.map Prod.snd)

/-- `best_retailer = min(prices, key=prices.get) if prices else None`
(line 164). -/
def bestRetailerOf (ps : List (String × ℚ)) : Option String :=
  (minByKey ps).map Prod.fst

/-- One output row of the long pipeline, restricted to the fields the
claims are about. -/
structure LongRow where
  code : String
  confidence : ℚ
  bestPrice : Option ℚ
  bestRetailer : Option String
deriving DecidableEq, Repr

/-- The long pipeline's exact-code output row for a surviving group
(lines 147-168): confidence hard-coded to `100.0`, no name comparison. -/
def longMatchedRow (code : String) (g : List Listing) : LongRow :=
  { code := code, confidence := 100,
    bestPrice := bestPriceOf (pricesDict g),
    bestRetailer := bestRetailerOf (pricesDict g) }

/-- Lines 171-172: `all_seen_codes = set(grouped.groups.keys())` is the
set of ALL codes present in `combined`, and `remaining` keeps the rows
whose code is not among them. -/
def remaining (combined : List Listing) : List Listing :=
  combined.filter fun l => l.code ∉ combined.map Listing.code

/-- Lines 183/187: the representative name of a retailer inside a
fallback row, the literal string "N/A" when the retailer is absent from
the group. -/
def naNameFor (g : List Listing) (r : String) : String :=
  match firstFor g r with
  | some l => l.name
  | none => "N/A"

/-- The long pipeline's fallback confidence formula on the three
per-retailer name slots (lines 191-196): maximum of the three pairwise
`match_score`s, scaled by 100 and rounded to TWO decimal places. -/
def longConfNames (n0 n1 n2 : String) : ℚ :=
  roundTo 2 (max (max (match_score n0 n1) (match_score n0 n2)) (match_score n1 n2) * 100)

/-- The long pipeline's fallback confidence of a group: the formula
applied to the representative names, "N/A" for absent retailers. -/
def fallbackConfidence (g : List Listing) : ℚ :=
  longConfNames (naNameFor g "2B") (naNameFor g "Btech") (naNameFor g "Raneen")

/-- A code yields a row in the long pipeline's fallback pass (lines
174-177): it occurs among the `remaining` rows and its group there spans
at least two distinct retailers. -/
def fallbackEmitted (combined : List Listing) (code : String) : Prop :=
  code ∈ (remaining combined).map Listing.code ∧
    2 ≤ nunique (groupOf (remaining combined) code)

/-- Output tier of a row. -/
inductive Tier where
  | matched
  | weakMatched
  | unmatched
deriving DecidableEq, Repr

/-- Tiering of a long-form fallback row (lines 207-210): weak-matched at
confidence ≥ 30, otherwise unmatched. -/
def longFallbackTier (g : List Listing) : Tier :=
  if 30 ≤ fallbackConfidence g then Tier.weakMatched else Tier.unmatched

/-- The short pipeline's group for a code after
`group.dropna(subset=["New Price"])` (lines 139-140): only rows with a
parsed price survive. -/
def shortGroup (combined : List Listing) (code : String) : List Listing :=
  (combined.filter fun l => l.code = code).filter fun l => l.price.isSome

/-- The short pipeline emits a row for a code iff, after dropping
price-less rows, the group still has at least two rows (line 141) — the
check counts ROWS, not distinct retailers. -/
def shortEmitted (combined : List Listing) (code : String) : Prop :=
  2 ≤ (shortGroup combined code).length

instance shortEmittedDec (combined : List Listing) (code : String) :
    Decidable (shortEmitted combined code) :=
  inferInstanceAs (Decidable (2 ≤ (shortGroup combined code).length))

/-- The price of a short-group row; rows in a `shortGroup` always carry
`some` price, so the default is never read. -/
def priceVal (l : Listing) : ℚ := l.price.getD 0

/-- `group.loc[group["New Price"].idxmin()]` (lines 146-147): the FIRST
row of the group attaining the minimal price. -/
def bestRowShort : List Listing → Option Listing
  | [] => none
  | x :: xs => some (xs.foldl (fun best q => if priceVal q < priceVal best then q else best) x)

/-- The short pipeline's confidence for a group (line 145):
`compute_confidence` over the group's item names. -/
def shortConfidence (g : List Listing) : ℚ :=
  compute_confidence (g.map Listing.name)

/-- Tiering of a short-form row (lines 158-161): matched at confidence
≥ 10 (`CONFIDENCE_THRESHOLD`), otherwise unmatched. -/
def shortTier (g : List Listing) : Tier :=
  if 10 ≤ shortConfidence g then Tier.matched else Tier.unmatched

/-! Evaluation and bound lemmas for the rounding model. -/

theorem rhe_of_lt_half (x : ℚ) (f : ℤ) (h1 : ⌊x⌋ = f) (h2 : x - f < 1/2) :
    rhe x = f := by
  unfold rhe
  rw [h1, if_pos h2]

theorem rhe_of_gt_half (x : ℚ) (f : ℤ) (h1 : ⌊x⌋ = f) (h2 : 1/2 < x - f) :
    rhe x = f + 1 := by
  unfold rhe
  rw [h1, if_neg (by linarith), if_pos h2]

theorem rhe_intCast (n : ℤ) : rhe (n : ℚ) = n := by
  refine rhe_of_lt_half _ n (Int.floor_intCast n) (by norm_num)

theorem rhe_le (x : ℚ) : (rhe x : ℚ) ≤ x + 1/2 := by
  have hfl : (⌊x⌋ : ℚ) ≤ x := Int.floor_le x
  have hfu : x < ⌊x⌋ + 1 := Int.lt_floor_add_one x
  unfold rhe
  split_ifs <;> push_cast <;> linarith

theorem le_rhe (x : ℚ) : x - 1/2 ≤ (rhe x : ℚ) := by
  have hfl : (⌊x⌋ : ℚ) ≤ x := Int.floor_le x
  have hfu : x < ⌊x⌋ + 1 := Int.lt_floor_add_one x
  unfold rhe
  split_ifs <;> push_cast <;> linarith

theorem rhe_nonneg (x : ℚ) (hx : 0 ≤ x) : 0 ≤ rhe x := by
  have hf : 0 ≤ ⌊x⌋ := Int.floor_nonneg.2 hx
  unfold rhe
  split_ifs <;> omega

theorem rhe_le_int (x : ℚ) (N : ℤ) (h : x ≤ N) : rhe x ≤ N := by
  have hf : ⌊x⌋ ≤ N := by
    have := Int.floor_mono h
    rwa [Int.floor_intCast] at this
  have hlt : ¬(x - ⌊x⌋ < 1/2) → ⌊x⌋ < N := by
    intro h1
    rcases lt_or_eq_of_le hf with h' | h'
    · exact h'
    · exfalso
      apply h1
      have hq : (⌊x⌋ : ℚ) = (N : ℚ) := by exact_mod_cast h'
      linarith
  unfold rhe
  split_ifs with h1 h2 h3
  · exact hf
  · have := hlt h1
    omega
  · exact hf
  · have := hlt h1
    omega

theorem roundTo_le (d : Nat) (x : ℚ) : roundTo d x ≤ x + 1 / (2 * 10 ^ d) := by
  have h10 : (0 : ℚ) < 10 ^ d := by positivity
  have h := rhe_le (x * 10 ^ d)
  rw [roundTo, div_le_iff h10]
  have hexp : (x + 1 / (2 * 10 ^ d)) * 10 ^ d = x * 10 ^ d + 1/2 := by
    field_simp
    ring
  rw [hexp]
  linarith

theorem le_roundTo (d : Nat) (x : ℚ) : x - 1 / (2 * 10 ^ d) ≤ roundTo d x := by
  have h10 : (0 : ℚ) < 10 ^ d := by positivity
  have h := le_rhe (x * 10 ^ d)
  rw [roundTo, le_div_iff h10]
  have hexp : (x - 1 / (2 * 10 ^ d)) * 10 ^ d = x * 10 ^ d - 1/2 := by
    field_simp
    ring
  rw [hexp]
  linarith

theorem roundTo_nonneg (d : Nat) (x : ℚ) (hx : 0 ≤ x) : 0 ≤ roundTo d x := by
  have h10 : (0 : ℚ) < 10 ^ d := by positivity
  have h : (0 : ℤ) ≤ rhe (x * 10 ^ d) := rhe_nonneg _ (by positivity)
  rw [roundTo]
  have : (0 : ℚ) ≤ (rhe (x * 10 ^ d) : ℚ) := by exact_mod_cast h
  positivity

theorem roundTo_le_hundred (d : Nat) (x : ℚ) (hx : x ≤ 100) : roundTo d x ≤ 100 := by
  have h10 : (0 : ℚ) < 10 ^ d := by positivity
  have hN : x * 10 ^ d ≤ ((100 * 10 ^ d : ℤ) : ℚ) := by
    push_cast
    nlinarith
  have h : rhe (x * 10 ^ d) ≤ (100 * 10 ^ d : ℤ) := rhe_le_int _ _ hN
  rw [roundTo, div_le_iff h10]
  calc (rhe (x * 10 ^ d) : ℚ) ≤ ((100 * 10 ^ d : ℤ) : ℚ) := by exact_mod_cast h
    _ = 100 * 10 ^ d := by push_cast; ring

theorem roundTo_intCast (d : Nat) (n : ℤ) : roundTo d ((n : ℚ) : ℚ) = n := by
  have h10 : (0 : ℚ) < 10 ^ d := by positivity
  have : ((n : ℚ)) * 10 ^ d = ((n * 10 ^ d : ℤ) : ℚ) := by push_cast; ring
  rw [roundTo, this, rhe_intCast]
  push_cast
  field_simp

theorem roundTo_two_thirds_scaled_2 : roundTo 2 (200/3) = 6667/100 := by
  unfold roundTo
  have h1 : ((200 : ℚ)/3) * 10 ^ 2 = 20000/3 := by norm_num
  rw [h1, rhe_of_gt_half _ 6666 (by rw [Int.floor_eq_iff] <;> norm_num) (by norm_num)]
  norm_num

theorem roundTo_two_thirds_scaled_1 : roundTo 1 (200/3) = 667/10 := by
  unfold roundTo
  have h1 : ((200 : ℚ)/3) * 10 ^ 1 = 2000/3 := by norm_num
  rw [h1, rhe_of_gt_half _ 666 (by rw [Int.floor_eq_iff] <;> norm_num) (by norm_num)]
  norm_num

theorem roundTo_zero (d : Nat) : roundTo d 0 = 0 := by
  have h := roundTo_intCast d 0
  simpa using h

theorem roundTo_hundred (d : Nat) : roundTo d 100 = 100 := by
  have h := roundTo_intCast d 100
  simpa using h

/-! Bounds on the similarity model: the matched total never exceeds
either string's length, hence the ratio lies in `[0, 1]`. -/

theorem suffLenF_le (a b : List Char) (alo blo : Nat) :
    ∀ fuel i j, suffLenF a b alo blo fuel i j ≤ i + 1 - alo ∧
      suffLenF a b alo blo fuel i j ≤ j + 1 - blo := by
  intro fuel
  induction fuel with
  | zero => intro i j; simp [suffLenF]
  | succ n ih =>
    intro i j
    unfold suffLenF
    split_ifs with h1 h2
    · have := ih (i - 1) (j - 1)
      obtain ⟨hi, hj⟩ := this
      obtain ⟨hai, hbj, _⟩ := h1
      obtain ⟨hai', hbj'⟩ := h2
      omega
    · obtain ⟨hai, hbj, _⟩ := h1
      omega
    · omega

theorem flmPairs_mem (alo ahi blo bhi : Nat) (ij : Nat × Nat)
    (h : ij ∈ flmPairs alo ahi blo bhi) :
    alo ≤ ij.1 ∧ ij.1 < ahi ∧ blo ≤ ij.2 ∧ ij.2 < bhi := by
  unfold flmPairs at h
  rw [List.mem_flatMap] at h
  obtain ⟨i, hi, hmem⟩ := h
  rw [List.mem_map] at hmem
  obtain ⟨j, hj, rfl⟩ := hmem
  rw [List.mem_range'_1] at hi hj
  omega


/-- The window invariant of difflib's best-block scan: the best triple is
either still the trivial `(alo, blo, 0)` or denotes a block inside the
window. -/
def flmInv (alo ahi blo bhi : Nat) (t : Nat × Nat × Nat) : Prop :=
  t.2.2 = 0 ∨ (alo ≤ t.1 ∧ t.1 + t.2.2 ≤ ahi ∧ blo ≤ t.2.1 ∧ t.2.1 + t.2.2 ≤ bhi)

theorem flmStep_inv (a b : List Char) (alo ahi blo bhi : Nat)
    (best : Nat × Nat × Nat) (ij : Nat × Nat)
    (hij : alo ≤ ij.1 ∧ ij.1 < ahi ∧ blo ≤ ij.2 ∧ ij.2 < bhi)
    (hbest : flmInv alo ahi blo bhi best) :
    flmInv alo ahi blo bhi (flmStep a b alo blo best ij) := by
  simp only [flmStep]
  have hs := suffLenF_le a b alo blo (ij.1 + 1) ij.1 ij.2
  split_ifs with hk
  · right
    unfold suffLen at hs hk ⊢
    simp only
    omega
  · exact hbest

theorem foldl_flm_inv (a b : List Char) (alo ahi blo bhi : Nat) :
    ∀ (ps : List (Nat × Nat)) (init : Nat × Nat × Nat),
      (∀ ij ∈ ps, alo ≤ ij.1 ∧ ij.1 < ahi ∧ blo ≤ ij.2 ∧ ij.2 < bhi) →
      flmInv alo ahi blo bhi init →
      flmInv alo ahi blo bhi (ps.foldl (flmStep a b alo blo) init) := by
  intro ps
  induction ps with
  | nil => intro init _ h; exact h
  | cons p t ih =>
    intro init hmem hinit
    rw [List.foldl_cons]
    exact ih _ (fun ij h => hmem ij (List.mem_cons_of_mem _ h))
      (flmStep_inv a b alo ahi blo bhi init p (hmem p (List.mem_cons_self _ _)) hinit)

theorem flm_bounds (a b : List Char) (alo ahi blo bhi : Nat) :
    flmInv alo ahi blo bhi (findLongestMatch a b alo ahi blo bhi) := by
  unfold findLongestMatch
  exact foldl_flm_inv a b alo ahi blo bhi _ _
    (fun ij h => flmPairs_mem alo ahi blo bhi ij h) (Or.inl rfl)

theorem matchTotalF_le (a b : List Char) :
    ∀ fuel alo ahi blo bhi,
      matchTotalF a b fuel alo ahi blo bhi ≤ min (ahi - alo) (bhi - blo) := by
  intro fuel
  induction fuel with
  | zero =>
    intro alo ahi blo bhi
    exact Nat.zero_le _
  | succ n ih =>
    intro alo ahi blo bhi
    unfold matchTotalF
    simp only
    split_ifs with h0
    · omega
    · rcases flm_bounds a b alo ahi blo bhi with h | ⟨hb1, hb2, hb3, hb4⟩
      · exact absurd h h0
      · set t := findLongestMatch a b alo ahi blo bhi with ht
        have hL := ih alo t.1 blo t.2.1
        have hR := ih (t.1 + t.2.2) ahi (t.2.1 + t.2.2) bhi
        have hL1 : matchTotalF a b n alo t.1 blo t.2.1 ≤ t.1 - alo :=
          le_trans hL (Nat.min_le_left _ _)
        have hL2 : matchTotalF a b n alo t.1 blo t.2.1 ≤ t.2.1 - blo :=
          le_trans hL (Nat.min_le_right _ _)
        have hR1 : matchTotalF a b n (t.1 + t.2.2) ahi (t.2.1 + t.2.2) bhi ≤
            ahi - (t.1 + t.2.2) := le_trans hR (Nat.min_le_left _ _)
        have hR2 : matchTotalF a b n (t.1 + t.2.2) ahi (t.2.1 + t.2.2) bhi ≤
            bhi - (t.2.1 + t.2.2) := le_trans hR (Nat.min_le_right _ _)
        refine le_min ?_ ?_
        · omega
        · omega

theorem matchTotal_le (a b : List Char) :
    matchTotal a b ≤ min a.length b.length := by
  unfold matchTotal
  have h := matchTotalF_le a b (a.length + b.length + 1) 0 a.length 0 b.length
  simp only [Nat.sub_zero] at h
  exact h

theorem simRatio_nonneg (a b : String) : 0 ≤ simRatio a b := by
  unfold simRatio
  split_ifs
  · norm_num
  · positivity

theorem simRatio_le_one (a b : String) : simRatio a b ≤ 1 := by
  unfold simRatio
  split_ifs with h
  · norm_num
  · have hM : matchTotal a.data b.data ≤ min a.length b.length :=
      matchTotal_le a.data b.data
    have h2M : 2 * matchTotal a.data b.data ≤ a.length + b.length := by omega
    have hpos : (0 : ℚ) < (a.length : ℚ) + (b.length : ℚ) := by
      have : 0 < a.length + b.length := Nat.pos_of_ne_zero h
      exact_mod_cast this
    rw [div_le_one hpos]
    exact_mod_cast h2M

/-! First-minimum behaviour of the Python `min` folds. -/

theorem foldl_min_first {α : Type} (val : α → ℚ) :
    ∀ (xs : List α) (x : α),
      ∃ pre post r,
        xs.foldl (fun b q => if val q < val b then q else b) x = r ∧
        x :: xs = pre ++ r :: post ∧
        (∀ q ∈ pre, val r < val q) ∧
        (∀ q ∈ x :: xs, val r ≤ val q) := by
  intro xs
  induction xs with
  | nil =>
    intro x
    exact ⟨[], [], x, rfl, rfl, by simp, by simp⟩
  | cons q rest ih =>
    intro x
    by_cases hlt : val q < val x
    · have hstep : (q :: rest).foldl (fun b q => if val q < val b then q else b) x =
          rest.foldl (fun b q => if val q < val b then q else b) q := by
        simp [List.foldl_cons, if_pos hlt]
      obtain ⟨pre', post', r, hr, hdec, hpre, hmin⟩ := ih q
      refine ⟨x :: pre', post', r, by rw [hstep, hr], ?_, ?_, ?_⟩
      · rw [List.cons_append, ← hdec]
      · intro p hp
        rcases List.mem_cons.1 hp with rfl | hp'
        · have : val r ≤ val q := hmin q (List.mem_cons_self _ _)
          linarith
        · exact hpre p hp'
      · intro p hp
        rcases List.mem_cons.1 hp with rfl | hp'
        · have : val r ≤ val q := hmin q (List.mem_cons_self _ _)
          linarith
        · exact hmin p hp'
    · have hxq : val x ≤ val q := le_of_not_lt hlt
      have hstep : (q :: rest).foldl (fun b q => if val q < val b then q else b) x =
          rest.foldl (fun b q => if val q < val b then q else b) x := by
        simp [List.foldl_cons, if_neg hlt]
      obtain ⟨pre', post', r, hr, hdec, hpre, hmin⟩ := ih x
      cases pre' with
      | nil =>
        simp only [List.nil_append] at hdec
        injection hdec with h1 h2
        subst h1
        refine ⟨[], q :: rest, x, by rw [hstep, hr], rfl, by simp, ?_⟩
        intro p hp
        rcases List.mem_cons.1 hp with rfl | hp'
        · exact le_refl _
        · rcases List.mem_cons.1 hp' with rfl | hp''
          · exact hxq
          · exact hmin p (List.mem_cons_of_mem _ hp'')
      | cons p0 pre'' =>
        simp only [List.cons_append] at hdec
        injection hdec with h1 h2
        subst h1
        have hrx : val r < val x := hpre x (List.mem_cons_self _ _)
        refine ⟨x :: q :: pre'', post', r, by rw [hstep, hr], ?_, ?_, ?_⟩
        · rw [h2]
          simp
        · intro p hp
          rcases List.mem_cons.1 hp with rfl | hp'
          · exact hrx
          · rcases List.mem_cons.1 hp' with rfl | hp''
            · linarith
            · exact hpre p (List.mem_cons_of_mem _ hp'')
        · intro p hp
          rcases List.mem_cons.1 hp with rfl | hp'
          · linarith
          · rcases List.mem_cons.1 hp' with rfl | hp''
            · linarith
            · exact hmin p (List.mem_cons_of_mem _ hp'')

/-! Pipeline-level helper lemmas. -/

/-- The long pipeline's leftover pool (lines 171-172) is empty for EVERY
combined table: every row's code trivially occurs among the keys of
`combined.groupby("Normalized Code")`, and `remaining` filters against
the full key set, not against the set of codes that produced a
two-retailer group. -/
theorem remaining_nil (combined : List Listing) : remaining combined = [] := by
  unfold remaining
  rw [List.filter_eq_nil_iff]
  intro l hl
  simp only [decide_not, Bool.not_eq_true', decide_eq_false_iff_not, not_not]
  exact List.mem_map_of_mem Listing.code hl

theorem two_le_length_of_mem_ne {α : Type} {l : List α} {a b : α}
    (ha : a ∈ l) (hb : b ∈ l) (hab : a ≠ b) : 2 ≤ l.length := by
  cases l with
  | nil => cases ha
  | cons x t =>
    cases t with
    | nil =>
      rw [List.mem_singleton] at ha hb
      exact absurd (ha.trans hb.symm) hab
    | cons y u => simp [List.length_cons]

theorem exists_two_retailers {g : List Listing} (h : 2 ≤ nunique g) :
    ∃ l1 ∈ g, ∃ l2 ∈ g, l1.retailer ≠ l2.retailer := by
  unfold nunique retailersOf at h
  have hnd : ((g.map Listing.retailer).dedup).Nodup := List.nodup_dedup _
  rcases hd : (g.map Listing.retailer).dedup with _ | ⟨r1, t⟩
  · rw [hd] at h
    simp at h
  · rcases t with _ | ⟨r2, u⟩
    · rw [hd] at h
      simp at h
    · rw [hd] at hnd
      have hne : r1 ≠ r2 := by
        intro hcon
        subst hcon
        exact (List.nodup_cons.1 hnd).1 (List.mem_cons_self _ _)
      have hr1 : r1 ∈ g.map Listing.retailer := by
        rw [← List.mem_dedup, hd]
        exact List.mem_cons_self _ _
      have hr2 : r2 ∈ g.map Listing.retailer := by
        rw [← List.mem_dedup, hd]
        exact List.mem_cons_of_mem _ (List.mem_cons_self _ _)
      obtain ⟨l1, hl1, hl1r⟩ := List.mem_map.1 hr1
      obtain ⟨l2, hl2, hl2r⟩ := List.mem_map.1 hr2
      exact ⟨l1, hl1, l2, hl2, by rw [hl1r, hl2r]; exact hne⟩

theorem nunique_ge_two {g : List Listing} {l1 l2 : Listing}
    (h1 : l1 ∈ g) (h2 : l2 ∈ g) (hne : l1.retailer ≠ l2.retailer) :
    2 ≤ nunique g := by
  unfold nunique retailersOf
  have m1 : l1.retailer ∈ (g.map Listing.retailer).dedup :=
    List.mem_dedup.2 (List.mem_map_of_mem _ h1)
  have m2 : l2.retailer ∈ (g.map Listing.retailer).dedup :=
    List.mem_dedup.2 (List.mem_map_of_mem _ h2)
  exact two_le_length_of_mem_ne m1 m2 hne

/-- The Python `min(..., key=...)` fold returns the first entry attaining
the minimal price. -/
theorem minByKey_spec (ps : List (String × ℚ)) (hne : ps ≠ []) :
    ∃ p pre post, minByKey ps = some p ∧ ps = pre ++ p :: post ∧
      (∀ q ∈ pre, p.2 < q.2) ∧ ∀ q ∈ ps, p.2 ≤ q.2 := by
  cases ps with
  | nil => exact absurd rfl hne
  | cons x xs =>
    obtain ⟨pre, post, r, hr, hdec, hpre, hmin⟩ := foldl_min_first Prod.snd xs x
    exact ⟨r, pre, post, by rw [minByKey, hr], hdec, hpre, hmin⟩

/-- `idxmin` model: the fold of `bestRowShort` returns the first row
attaining the minimal price. -/
theorem bestRowShort_spec (g : List Listing) (hne : g ≠ []) :
    ∃ b pre post, bestRowShort g = some b ∧ g = pre ++ b :: post ∧
      (∀ q ∈ pre, priceVal b < priceVal q) ∧ ∀ q ∈ g, priceVal b ≤ priceVal q := by
  cases g with
  | nil => exact absurd rfl hne
  | cons x xs =>
    obtain ⟨pre, post, r, hr, hdec, hpre, hmin⟩ := foldl_min_first priceVal xs x
    exact ⟨r, pre, post, by rw [bestRowShort, hr], hdec, hpre, hmin⟩

theorem step_snd (b q : String × ℚ) :
    (if q.2 < b.2 then q else b).2 = min b.2 q.2 := by
  rcases lt_or_le q.2 b.2 with h | h
  · rw [if_pos h, min_eq_right (le_of_lt h)]
  · rw [if_neg (not_lt.2 h), min_eq_left h]

theorem foldl_pair_snd :
    ∀ (xs : List (String × ℚ)) (p : String × ℚ),
      (xs.foldl (fun best q => if q.2 < best.2 then q else best) p).2 =
        (xs.map Prod.snd).foldl min p.2 := by
  intro xs
  induction xs with
  | nil => intro p; rfl
  | cons q t ih =>
    intro p
    rw [List.foldl_cons, List.map_cons, List.foldl_cons, ih, step_snd]

/-- `min(prices.values())` agrees with the price of the entry chosen by
`min(prices, key=prices.get)`. -/
theorem bestPriceOf_eq (ps : List (String × ℚ)) :
    bestPriceOf ps = (minByKey ps).map Prod.snd := by
  cases ps with
  | nil => rfl
  | cons x xs =>
    simp only [bestPriceOf, minList, minByKey, List.map_cons, Option.map_some']
    rw [foldl_pair_snd]

/-! Range of the confidence scores. -/

theorem compute_confidence_nonneg (names : List String) :
    0 ≤ compute_confidence names := by
  unfold compute_confidence
  split_ifs
  · norm_num
  · apply roundTo_nonneg
    have hsum : 0 ≤ ((pairsOf names).map fun p => simRatio p.1 p.2).sum :=
      List.sum_nonneg fun x hx => by
        obtain ⟨p, _, rfl⟩ := List.mem_map.1 hx
        exact simRatio_nonneg p.1 p.2
    positivity

theorem compute_confidence_le_hundred (names : List String) :
    compute_confidence names ≤ 100 := by
  unfold compute_confidence
  split_ifs
  · norm_num
  · apply roundTo_le_hundred
    set scores := (pairsOf names).map fun p => simRatio p.1 p.2 with hs
    have hsum : scores.sum ≤ (scores.length : ℚ) := by
      have h1 : scores.sum ≤ scores.length • (1 : ℚ) :=
        List.sum_le_card_nsmul scores 1 fun x hx => by
          obtain ⟨p, _, rfl⟩ := List.mem_map.1 hx
          exact simRatio_le_one p.1 p.2
      simpa using h1
    rcases Nat.eq_zero_or_pos scores.length with h0 | hpos
    · rw [h0]
      norm_num
    · have hlen : (0 : ℚ) < (scores.length : ℚ) := by exact_mod_cast hpos
      have hmean : scores.sum / (scores.length : ℚ) ≤ 1 := by
        rw [div_le_one hlen]
        exact hsum
      have hmean0 : 0 ≤ scores.sum / (scores.length : ℚ) := by
        have : 0 ≤ scores.sum :=
          List.sum_nonneg fun x hx => by
            obtain ⟨p, _, rfl⟩ := List.mem_map.1 hx
            exact simRatio_nonneg p.1 p.2
        positivity
      nlinarith

theorem longConfNames_nonneg (n0 n1 n2 : String) : 0 ≤ longConfNames n0 n1 n2 := by
  unfold longConfNames
  apply roundTo_nonneg
  have h0 : 0 ≤ match_score n0 n1 := simRatio_nonneg n0 n1
  have hM : match_score n0 n1 ≤ max (max (match_score n0 n1) (match_score n0 n2))
      (match_score n1 n2) := le_trans (le_max_left _ _) (le_max_left _ _)
  nlinarith

theorem longConfNames_le_hundred (n0 n1 n2 : String) : longConfNames n0 n1 n2 ≤ 100 := by
  unfold longConfNames
  apply roundTo_le_hundred
  have h1 : match_score n0 n1 ≤ 1 := simRatio_le_one n0 n1
  have h2 : match_score n0 n2 ≤ 1 := simRatio_le_one n0 n2
  have h3 : match_score n1 n2 ≤ 1 := simRatio_le_one n1 n2
  have hM : max (max (match_score n0 n1) (match_score n0 n2)) (match_score n1 n2) ≤ 1 :=
    max_le (max_le h1 h2) h3
  nlinarith

/-! Claim C1: the long pipeline's leftover pool. -/

/-- Concrete combined table for C1: code "abc" occurs only at retailer
2B, so it yields no two-retailer group in the primary pass. -/
def c1input : List Listing :=
  prepareLong "2B" [⟨"Solo", some 5, some "abc"⟩, ⟨"X", some 3, some "xy"⟩] ++
    prepareLong "Btech" [⟨"X2", some 4, some "xy"⟩]

/-- C1.  The claim says the leftover pool re-grouped by the fallback pass
consists exactly of the listings whose code yielded no two-retailer group
in the primary pass.  The code instead filters against the FULL key set
of the primary groupby, so the pool is empty for every input: a listing
whose code never met a second retailer (the "Solo"/"abc" row of
`c1input`) is claimed to be a leftover but is not in `remaining`, and the
whole fallback/weak-match branch of the long pipeline is dead code. -/
theorem c1_leftover_pool_empty :
    (∀ combined : List Listing, remaining combined = []) ∧
    (∃ l ∈ c1input, l.code = "abc" ∧ ¬ longEmittedMatched c1input "abc") ∧
    remaining c1input = [] := by
  refine ⟨remaining_nil, by decide, remaining_nil c1input⟩

/-! Claim C5: the Blender scenario (two listings with empty-string
codes). -/

/-- Concrete combined table for C5: the spec's Blender scenario, both
rows carrying the empty-string normalized code. -/
def c5input : List Listing :=
  prepareLong "2B" [⟨"Blender 500W", some 200, some ""⟩] ++
    prepareLong "Btech" [⟨"Blender 500 Watt", some 180, some ""⟩]

/-- C5.  The claim says the two empty-code Blender listings form a
fallback fuzzy group with confidence 55.0, tier weak-matched.  The code
never treats the empty string specially: the two rows form a PRIMARY
exact-code group under the key `""` and are emitted in the matched tier
with confidence hard-coded to 100.0 (and the fallback pool is empty, so
no fuzzy row exists at all). -/
theorem c5_blender_scenario_exact_code :
    longEmittedMatched c5input "" ∧
    (longMatchedRow "" (groupOf c5input "")).confidence = 100 ∧
    (longMatchedRow "" (groupOf c5input "")).bestPrice = some 180 ∧
    (longMatchedRow "" (groupOf c5input "")).bestRetailer = some "Btech" ∧
    remaining c5input = [] := by
  refine ⟨by decide, rfl, by decide, by decide, remaining_nil _⟩

/-! Claim C4: the price resolver. -/

/-- C4.  With at least one known per-retailer price, the reported best
price is the minimum of the present prices and the best retailer is its
owner; with no known price both are `None` ("unknown"), and being total
Lean functions the resolvers raise nothing.  The short pipeline's
`idxmin` likewise returns a row of minimal price within the
(price-filtered) group. -/
theorem c4_price_resolver_min_or_unknown :
    (∀ g : List Listing, pricesDict g = [] →
        bestPriceOf (pricesDict g) = none ∧ bestRetailerOf (pricesDict g) = none) ∧
    (∀ g : List Listing, pricesDict g ≠ [] →
        ∃ p, minByKey (pricesDict g) = some p ∧ p ∈ pricesDict g ∧
          bestPriceOf (pricesDict g) = some p.2 ∧
          bestRetailerOf (pricesDict g) = some p.1 ∧
          ∀ q ∈ pricesDict g, p.2 ≤ q.2) ∧
    (∀ (combined : List Listing) (code : String), shortGroup combined code ≠ [] →
        ∃ b, bestRowShort (shortGroup combined code) = some b ∧
          b ∈ shortGroup combined code ∧
          ∀ q ∈ shortGroup combined code, priceVal b ≤ priceVal q) := by
  refine ⟨?_, ?_, ?_⟩
  · intro g h
    rw [bestPriceOf_eq]
    unfold bestRetailerOf
    rw [h]
    exact ⟨rfl, rfl⟩
  · intro g h
    obtain ⟨p, pre, post, hmk, hdec, hpre, hmin⟩ := minByKey_spec _ h
    refine ⟨p, hmk, ?_, ?_, ?_, hmin⟩
    · rw [hdec]
      exact List.mem_append.2 (Or.inr (List.mem_cons_self _ _))
    · rw [bestPriceOf_eq, hmk]
      rfl
    · unfold bestRetailerOf
      rw [hmk]
      rfl
  · intro combined code h
    obtain ⟨b, pre, post, hbr, hdec, hpre, hmin⟩ := bestRowShort_spec _ h
    exact ⟨b, hbr, by rw [hdec]; exact List.mem_append.2 (Or.inr (List.mem_cons_self _ _)),
      hmin⟩

/-- Concrete two-retailer group used to witness C4. -/
def c4g : List Listing := [⟨"x", some 10, "c", "2B"⟩, ⟨"y", some 7, "c", "Btech"⟩]

theorem c4_price_resolver_witness :
    (pricesDict ([] : List Listing) = []) ∧
    (bestPriceOf (pricesDict ([] : List Listing)) = none ∧
      bestRetailerOf (pricesDict ([] : List Listing)) = none) ∧
    (pricesDict c4g ≠ []) ∧
    (∃ p, minByKey (pricesDict c4g) = some p ∧ p ∈ pricesDict c4g ∧
      bestPriceOf (pricesDict c4g) = some p.2 ∧
      bestRetailerOf (pricesDict c4g) = some p.1 ∧
      ∀ q ∈ pricesDict c4g, p.2 ≤ q.2) ∧
    (shortGroup c4g "c" ≠ []) ∧
    (∃ b, bestRowShort (shortGroup c4g "c") = some b ∧ b ∈ shortGroup c4g "c" ∧
      ∀ q ∈ shortGroup c4g "c", priceVal b ≤ priceVal q) :=
  ⟨by decide, c4_price_resolver_min_or_unknown.1 [] (by decide), by decide,
    c4_price_resolver_min_or_unknown.2.1 c4g (by decide), by decide,
    c4_price_resolver_min_or_unknown.2.2 c4g "c" (by decide)⟩

/-! Claim C6: tie-breaking of the best retailer. -/

/-- C6.  When two or more entries tie on the minimal price, both the
long pipeline's `min(prices, key=prices.get)` and the short pipeline's
`idxmin` deterministically return the iteration-first entry of the tied
set: the chosen entry is minimal and everything strictly before it in
iteration order is strictly more expensive. -/
theorem c6_tie_break_iteration_first :
    (∀ (ps : List (String × ℚ)) (p1 p2 : String × ℚ), p1 ∈ ps → p2 ∈ ps → p1 ≠ p2 →
        (∀ q ∈ ps, p1.2 ≤ q.2) → (∀ q ∈ ps, p2.2 ≤ q.2) →
        ∃ p pre post, minByKey ps = some p ∧ bestRetailerOf ps = some p.1 ∧
          ps = pre ++ p :: post ∧ (∀ q ∈ pre, p.2 < q.2) ∧ ∀ q ∈ ps, p.2 ≤ q.2) ∧
    (∀ (g : List Listing) (l1 l2 : Listing), l1 ∈ g → l2 ∈ g → l1 ≠ l2 →
        (∀ q ∈ g, priceVal l1 ≤ priceVal q) → (∀ q ∈ g, priceVal l2 ≤ priceVal q) →
        ∃ b pre post, bestRowShort g = some b ∧ g = pre ++ b :: post ∧
          (∀ q ∈ pre, priceVal b < priceVal q) ∧ ∀ q ∈ g, priceVal b ≤ priceVal q) := by
  constructor
  · intro ps p1 p2 h1 _ _ _ _
    have hne : ps ≠ [] := List.ne_nil_of_mem h1
    obtain ⟨p, pre, post, hmk, hdec, hpre, hmin⟩ := minByKey_spec ps hne
    exact ⟨p, pre, post, hmk, by unfold bestRetailerOf; rw [hmk]; rfl, hdec, hpre, hmin⟩
  · intro g l1 l2 h1 _ _ _ _
    have hne : g ≠ [] := List.ne_nil_of_mem h1
    obtain ⟨b, pre, post, hbr, hdec, hpre, hmin⟩ := bestRowShort_spec g hne
    exact ⟨b, pre, post, hbr, hdec, hpre, hmin⟩

/-- Concrete tied inputs used to witness C6. -/
def c6ps : List (String × ℚ) := [("2B", 5), ("Btech", 5)]

/-- Concrete tied short-form group used to witness C6. -/
def c6g : List Listing := [⟨"m", some 5, "c", "2B"⟩, ⟨"n", some 5, "c", "Btech"⟩]

theorem c6_tie_break_witness :
    (∃ p pre post, minByKey c6ps = some p ∧ bestRetailerOf c6ps = some p.1 ∧
      c6ps = pre ++ p :: post ∧ (∀ q ∈ pre, p.2 < q.2) ∧ ∀ q ∈ c6ps, p.2 ≤ q.2) ∧
    (∃ b pre post, bestRowShort c6g = some b ∧ c6g = pre ++ b :: post ∧
      (∀ q ∈ pre, priceVal b < priceVal q) ∧ ∀ q ∈ c6g, priceVal b ≤ priceVal q) := by
  constructor
  · exact c6_tie_break_iteration_first.1 c6ps ("2B", 5) ("Btech", 5) (by decide) (by decide)
      (by decide) (by decide) (by decide)
  · exact c6_tie_break_iteration_first.2 c6g ⟨"m", some 5, "c", "2B"⟩
      ⟨"n", some 5, "c", "Btech"⟩ (by decide) (by decide) (by decide) (by decide) (by decide)

/-! Evaluation lemmas for `compute_confidence` on two and three names. -/

theorem compute_confidence_pair (a b : String) :
    compute_confidence [a, b] = roundTo 1 (simRatio a b * 100) := by
  unfold compute_confidence
  rw [if_neg (by simp)]
  simp only [pairsOf, List.map_cons, List.map_nil, List.append_nil, List.nil_append,
    List.sum_cons, List.sum_nil, List.length_cons, List.length_nil]
  norm_num

theorem compute_confidence_triple (a b c : String) :
    compute_confidence [a, b, c] =
      roundTo 1 ((simRatio a b + simRatio a c + simRatio b c) / 3 * 100) := by
  unfold compute_confidence
  rw [if_neg (by simp)]
  simp only [pairsOf, List.map_cons, List.map_nil, List.append_nil, List.nil_append,
    List.cons_append, List.sum_cons, List.sum_nil, List.length_cons, List.length_nil]
  ring_nf

/-! Claim C2: exact-code groups. -/

/-- C2 (amended, long pipeline): two listings with identical normalized
code from different retailers share the exact-code group, which is
emitted with confidence hard-coded to 100.0 and no name comparison. -/
theorem c2_long_exact_code_conf_100 :
    ∀ (combined : List Listing) (l1 l2 : Listing), l1 ∈ combined → l2 ∈ combined →
      l1.code = l2.code → l1.code ≠ "" → l1.retailer ≠ l2.retailer →
      l1 ∈ groupOf combined l1.code ∧ l2 ∈ groupOf combined l1.code ∧
      longEmittedMatched combined l1.code ∧
      (longMatchedRow l1.code (groupOf combined l1.code)).confidence = 100 := by
  intro combined l1 l2 h1 h2 hcode _ hret
  have hg1 : l1 ∈ groupOf combined l1.code := by
    unfold groupOf
    rw [List.mem_filter]
    exact ⟨h1, by simp⟩
  have hg2 : l2 ∈ groupOf combined l1.code := by
    unfold groupOf
    rw [List.mem_filter]
    refine ⟨h2, ?_⟩
    simp [hcode]
  exact ⟨hg1, hg2, ⟨List.mem_map_of_mem _ h1, nunique_ge_two hg1 hg2 hret⟩, rfl⟩

/-- Concrete exact-code long-form group witnessing C2 (the spec's Widget
scenario). -/
def c2long : List Listing :=
  [⟨"Widget X1", some 100, "x1", "2B"⟩, ⟨"Widget X1 Pro", some 90, "x1", "Btech"⟩]

theorem c2_long_exact_code_witness :
    (⟨"Widget X1", some 100, "x1", "2B"⟩ : Listing) ∈ groupOf c2long "x1" ∧
    (⟨"Widget X1 Pro", some 90, "x1", "Btech"⟩ : Listing) ∈ groupOf c2long "x1" ∧
    longEmittedMatched c2long "x1" ∧
    (longMatchedRow "x1" (groupOf c2long "x1")).confidence = 100 :=
  c2_long_exact_code_conf_100 c2long ⟨"Widget X1", some 100, "x1", "2B"⟩
    ⟨"Widget X1 Pro", some 90, "x1", "Btech"⟩ (by decide) (by decide) rfl (by decide)
    (by decide)

/-- Concrete short-form table for the C2 counterexample: identical
non-empty code "x1" at two retailers with dissimilar names. -/
def c2input : List Listing :=
  prepareShort "2B" [⟨"ab", some 1, some "x1"⟩] ++
    prepareShort "BTECH" [⟨"cd", some 2, some "x1"⟩]

/-- C2 counterexample: the SHORT pipeline never assigns exact-code groups
confidence 100.0 — it always runs the mean name-similarity computation.
Here the exact-code group of `c2input` is emitted with confidence 0.0. -/
theorem c2_counterexample_short_not_100 :
    shortEmitted c2input "x1" ∧
    shortConfidence (shortGroup c2input "x1") = 0 ∧
    shortConfidence (shortGroup c2input "x1") ≠ 100 := by
  have hg : (shortGroup c2input "x1").map Listing.name = ["ab", "cd"] := by decide
  have hm : matchTotal "ab".data "cd".data = 0 := by decide
  have hr : simRatio "ab" "cd" = 0 := by
    unfold simRatio
    rw [if_neg (by decide), hm]
    norm_num
  have hc : shortConfidence (shortGroup c2input "x1") = 0 := by
    unfold shortConfidence
    rw [hg, compute_confidence_pair, hr]
    simpa using roundTo_zero 1
  exact ⟨by decide, hc, by rw [hc]; norm_num⟩

/-! Claim C3: the two-distinct-retailer output invariant. -/

/-- C3 (amended): the LONG pipeline emits a primary row only for groups
with two listings from distinct retailers and never emits a fallback row
(its pool is empty); the SHORT pipeline only guarantees two PRICED ROWS
per emitted group — they may all come from one retailer. -/
theorem c3_retailer_guarantees :
    (∀ (combined : List Listing) (code : String), longEmittedMatched combined code →
        ∃ l1 ∈ groupOf combined code, ∃ l2 ∈ groupOf combined code,
          l1.retailer ≠ l2.retailer) ∧
    (∀ (combined : List Listing) (code : String),
        nunique (groupOf combined code) < 2 → ¬ longEmittedMatched combined code) ∧
    (∀ (combined : List Listing) (code : String), ¬ fallbackEmitted combined code) ∧
    (∀ (combined : List Listing) (code : String), shortEmitted combined code →
        2 ≤ (shortGroup combined code).length ∧
        ∀ l ∈ shortGroup combined code, l.price.isSome) := by
  refine ⟨?_, ?_, ?_, ?_⟩
  · intro combined code h
    exact exists_two_retailers h.2
  · intro combined code h hcon
    have h2 := hcon.2
    omega
  · intro combined code h
    have h1 := h.1
    rw [remaining_nil] at h1
    simp at h1
  · intro combined code h
    refine ⟨h, ?_⟩
    intro l hl
    exact (List.mem_filter.1 hl).2

/-- Concrete long-form two-retailer group used to witness C3. -/
def c3long : List Listing := [⟨"p", some 1, "k", "2B"⟩, ⟨"q", some 2, "k", "Raneen"⟩]

/-- Concrete short-form table for the C3 counterexample: both rows of the
"x1" group come from retailer 2B alone. -/
def c3input : List Listing :=
  prepareShort "2B" [⟨"a", some 5, some "x1"⟩, ⟨"a2", some 7, some "x1"⟩] ++
    prepareShort "BTECH" [⟨"b", some 3, some "zz"⟩]

theorem c3_retailer_guarantees_witness :
    (∃ l1 ∈ groupOf c3long "k", ∃ l2 ∈ groupOf c3long "k", l1.retailer ≠ l2.retailer) ∧
    (¬ longEmittedMatched c3long "zzz") ∧
    (¬ fallbackEmitted c3long "k") ∧
    (2 ≤ (shortGroup c3input "x1").length ∧
      ∀ l ∈ shortGroup c3input "x1", l.price.isSome) :=
  ⟨c3_retailer_guarantees.1 c3long "k" (by decide),
    c3_retailer_guarantees.2.1 c3long "zzz" (by decide),
    c3_retailer_guarantees.2.2.1 c3long "k",
    c3_retailer_guarantees.2.2.2 c3input "x1" (by decide)⟩

/-- C3 counterexample: the short pipeline emits the "x1" group of
`c3input` although all of its listings come from the single retailer 2B. -/
theorem c3_counterexample_single_retailer :
    shortEmitted c3input "x1" ∧ nunique (shortGroup c3input "x1") = 1 := by
  decide

/-! Claim C9: retention of listings with unparseable prices. -/

/-- C9 (amended): the LONG pipeline keeps a price-less listing — its
`prepare` only drops missing-CODE rows, so the listing still reaches its
normalized-code group with `price = none`; the SHORT pipeline drops every
price-less row from each group before emission. -/
theorem c9_long_retains_short_drops :
    (∀ (retailer : String) (rows : List RawRow) (r : RawRow) (c : String),
        r ∈ rows → r.code = some c →
        ∃ l ∈ groupOf (prepareLong retailer rows) (lowerStr (stripStr c)),
          l.price = r.price ∧ l.retailer = retailer ∧ l.name = stripStr r.itemName) ∧
    (∀ (combined : List Listing) (code : String) (l : Listing),
        l.price = none → l ∉ shortGroup combined code) := by
  constructor
  · intro retailer rows r c hr hc
    refine ⟨⟨stripStr r.itemName, r.price, lowerStr (stripStr c), retailer⟩, ?_, rfl, rfl, rfl⟩
    unfold groupOf
    rw [List.mem_filter]
    constructor
    · unfold prepareLong
      rw [List.mem_filterMap]
      exact ⟨r, hr, by rw [hc]; rfl⟩
    · simp
  · intro combined code l hp hmem
    have h2 := (List.mem_filter.1 hmem).2
    rw [hp] at h2
    simp at h2

/-- Concrete raw rows used to witness C9: a row whose price failed
numeric coercion. -/
def c9rows : List RawRow := [⟨"b", none, some "X"⟩]

/-- Concrete short-form table for the C9 counterexample: the BTECH row's
price is unparseable (`none`). -/
def c9input : List Listing :=
  prepareShort "2B" [⟨"a", some 5, some "x1"⟩] ++
    prepareShort "BTECH" [⟨"b", none, some "x1"⟩]

theorem c9_long_retains_short_drops_witness :
    (∃ l ∈ groupOf (prepareLong "2B" c9rows) (lowerStr (stripStr "X")),
      l.price = none ∧ l.retailer = "2B" ∧ l.name = stripStr "b") ∧
    ((⟨"b", none, "x1", "BTECH"⟩ : Listing) ∉ shortGroup c9input "x1") :=
  ⟨c9_long_retains_short_drops.1 "2B" c9rows ⟨"b", none, some "X"⟩ "X" (by decide) rfl,
    c9_long_retains_short_drops.2 c9input "x1" ⟨"b", none, "x1", "BTECH"⟩ rfl⟩

/-- C9 counterexample: in the SHORT pipeline the unparseable-price row IS
dropped — it belongs to no short group, and here its loss even kills the
whole "x1" group (fewer than two priced rows remain), so the retained row
never reaches the output either. -/
theorem c9_counterexample_short_dropped :
    (∃ l ∈ c9input, l.price = none ∧ l.code = "x1") ∧
    (∀ l ∈ shortGroup c9input "x1", l.price ≠ none) ∧
    ¬ shortEmitted c9input "x1" := by
  decide

/-! Claim C10: the "nan" grouping key of the short pipeline. -/

/-- C10.  In the short pipeline a missing Normalized Code cell is
stringified to the lower-cased literal "nan" and used as a grouping key,
so codeless rows from different retailers meet in the `"nan"` group and,
with parseable prices and confidence ≥ 10, are emitted in the matched
tier; the long pipeline's `prepare` drops missing-code rows before
grouping. -/
theorem c10_nan_key_grouping :
    (∀ (retailer : String) (rows : List RawRow) (r : RawRow), r ∈ rows → r.code = none →
        ∃ l ∈ prepareShort retailer rows, l.code = "nan" ∧ l.price = r.price ∧
          l.name = r.itemName ∧ l.retailer = retailer) ∧
    (∀ (combined : List Listing) (l1 l2 : Listing), l1 ∈ combined → l2 ∈ combined →
        l1 ≠ l2 → l1.code = "nan" → l2.code = "nan" →
        l1.price.isSome → l2.price.isSome →
        l1 ∈ shortGroup combined "nan" ∧ l2 ∈ shortGroup combined "nan" ∧
        shortEmitted combined "nan" ∧
        (10 ≤ shortConfidence (shortGroup combined "nan") →
          shortTier (shortGroup combined "nan") = Tier.matched)) ∧
    (∀ (retailer : String) (rows : List RawRow), (∀ r ∈ rows, r.code = none) →
        prepareLong retailer rows = []) := by
  refine ⟨?_, ?_, ?_⟩
  · intro retailer rows r hr hc
    refine ⟨⟨r.itemName, r.price, lowerStr "nan", retailer⟩, ?_,
      show lowerStr "nan" = "nan" by decide, rfl, rfl, rfl⟩
    unfold prepareShort
    rw [List.mem_map]
    refine ⟨r, hr, ?_⟩
    rw [hc]
  · intro combined l1 l2 h1 h2 hne hc1 hc2 hp1 hp2
    have hg1 : l1 ∈ shortGroup combined "nan" := by
      unfold shortGroup
      rw [List.mem_filter]
      refine ⟨?_, hp1⟩
      rw [List.mem_filter]
      exact ⟨h1, by simp [hc1]⟩
    have hg2 : l2 ∈ shortGroup combined "nan" := by
      unfold shortGroup
      rw [List.mem_filter]
      refine ⟨?_, hp2⟩
      rw [List.mem_filter]
      exact ⟨h2, by simp [hc2]⟩
    refine ⟨hg1, hg2, two_le_length_of_mem_ne hg1 hg2 hne, ?_⟩
    intro h
    unfold shortTier
    rw [if_pos h]
  · intro retailer rows h
    unfold prepareLong
    rw [List.filterMap_eq_nil]
    intro r hr
    rw [h r hr]
    rfl

/-- Concrete short-form table witnessing C10: both rows lack a code. -/
def c10combined : List Listing :=
  prepareShort "2B" [⟨"x", some 1, none⟩] ++ prepareShort "BTECH" [⟨"x", some 2, none⟩]

theorem c10_nan_key_witness :
    (∃ l ∈ prepareShort "2B" [⟨"x", some 1, none⟩], l.code = "nan" ∧ l.price = some 1 ∧
      l.name = "x" ∧ l.retailer = "2B") ∧
    ((⟨"x", some 1, "nan", "2B"⟩ : Listing) ∈ shortGroup c10combined "nan" ∧
      (⟨"x", some 2, "nan", "BTECH"⟩ : Listing) ∈ shortGroup c10combined "nan" ∧
      shortEmitted c10combined "nan" ∧
      (10 ≤ shortConfidence (shortGroup c10combined "nan") →
        shortTier (shortGroup c10combined "nan") = Tier.matched)) ∧
    shortTier (shortGroup c10combined "nan") = Tier.matched ∧
    prepareLong "2B" ([⟨"q", some 3, none⟩] : List RawRow) = [] := by
  have hconf : shortConfidence (shortGroup c10combined "nan") = 100 := by
    have hg : (shortGroup c10combined "nan").map Listing.name = ["x", "x"] := by decide
    have hm : matchTotal "x".data "x".data = 1 := by decide
    have hr : simRatio "x" "x" = 1 := by
      have hlx : ("x" : String).length = 1 := by decide
      unfold simRatio
      rw [if_neg (by decide), hm, hlx]
      norm_num
    unfold shortConfidence
    rw [hg, compute_confidence_pair, hr]
    simpa using roundTo_hundred 1
  have hpart2 := c10_nan_key_grouping.2.1 c10combined ⟨"x", some 1, "nan", "2B"⟩
    ⟨"x", some 2, "nan", "BTECH"⟩ (by decide) (by decide) (by decide) rfl rfl rfl rfl
  exact ⟨c10_nan_key_grouping.1 "2B" [⟨"x", some 1, none⟩] ⟨"x", some 1, none⟩
      (by decide) rfl, hpart2, hpart2.2.2.2 (by rw [hconf]; norm_num),
    c10_nan_key_grouping.2.2 "2B" [⟨"q", some 3, none⟩] (by decide)⟩

/-! Claim C7: max policy versus mean policy. -/

/-- Concrete two-retailer fallback group for the C7 counterexample. -/
def c7group : List Listing := [⟨"a", some 1, "c1", "2B"⟩, ⟨"ab", some 2, "c1", "Btech"⟩]

/-- C7 counterexample: on `c7group` every pairwise similarity that is not
against the "N/A" filler equals 2/3, so the UNROUNDED max and mean agree;
but the long pipeline rounds to 2 decimals (66.67) and the short one to 1
decimal (66.7), so the reported long-form confidence is STRICTLY BELOW
the short-form one, refuting `long ≥ short` as stated. -/
theorem c7_counterexample_rounding :
    fallbackConfidence c7group = 6667/100 ∧
    shortConfidence (shortGroup c7group "c1") = 667/10 ∧
    fallbackConfidence c7group < shortConfidence (shortGroup c7group "c1") := by
  have hm1 : matchTotal "a".data "ab".data = 1 := by decide
  have hr1 : simRatio "a" "ab" = 2/3 := by
    have hla : ("a" : String).length = 1 := by decide
    have hlb : ("ab" : String).length = 2 := by decide
    unfold simRatio
    rw [if_neg (by decide), hm1, hla, hlb]
    norm_num
  have hm2 : matchTotal "a".data "N/A".data = 0 := by decide
  have hr2 : simRatio "a" "N/A" = 0 := by
    unfold simRatio
    rw [if_neg (by decide), hm2]
    norm_num
  have hm3 : matchTotal "ab".data "N/A".data = 0 := by decide
  have hr3 : simRatio "ab" "N/A" = 0 := by
    unfold simRatio
    rw [if_neg (by decide), hm3]
    norm_num
  have hlong : fallbackConfidence c7group = 6667/100 := by
    have hn0 : naNameFor c7group "2B" = "a" := by decide
    have hn1 : naNameFor c7group "Btech" = "ab" := by decide
    have hn2 : naNameFor c7group "Raneen" = "N/A" := by decide
    unfold fallbackConfidence
    rw [hn0, hn1, hn2]
    unfold longConfNames match_score
    rw [hr1, hr2, hr3]
    have hmax : max (max (2/3 : ℚ) 0) 0 = 2/3 := by
      rw [max_eq_left (by norm_num), max_eq_left (by norm_num)]
    rw [hmax]
    have h23 : (2/3 : ℚ) * 100 = 200/3 := by norm_num
    rw [h23, roundTo_two_thirds_scaled_2]
  have hshort : shortConfidence (shortGroup c7group "c1") = 667/10 := by
    have hg : (shortGroup c7group "c1").map Listing.name = ["a", "ab"] := by decide
    unfold shortConfidence
    rw [hg, compute_confidence_pair, hr1]
    have h23 : (2/3 : ℚ) * 100 = 200/3 := by norm_num
    rw [h23, roundTo_two_thirds_scaled_1]
  exact ⟨hlong, hshort, by rw [hlong, hshort]; norm_num⟩

/-- C7 (amended): before rounding, the long-form max policy dominates the
short-form mean policy on the same name slots; after the pipelines'
differing roundings (2 decimals versus 1 decimal) the long-form value can
fall below the short-form value by at most 11/200 = 0.055, one half-step
of each rounding grid. -/
theorem c7_max_ge_mean_upto_rounding :
    ∀ n0 n1 n2 : String,
      (simRatio n0 n1 + simRatio n0 n2 + simRatio n1 n2) / 3 ≤
        max (max (simRatio n0 n1) (simRatio n0 n2)) (simRatio n1 n2) ∧
      compute_confidence [n0, n1, n2] ≤ longConfNames n0 n1 n2 + 11/200 ∧
      compute_confidence [n0, n1] ≤ longConfNames n0 n1 "N/A" + 11/200 := by
  intro n0 n1 n2
  have h01 : simRatio n0 n1 ≤ max (max (simRatio n0 n1) (simRatio n0 n2)) (simRatio n1 n2) :=
    le_trans (le_max_left _ _) (le_max_left _ _)
  have h02 : simRatio n0 n2 ≤ max (max (simRatio n0 n1) (simRatio n0 n2)) (simRatio n1 n2) :=
    le_trans (le_max_right _ _) (le_max_left _ _)
  have h12 : simRatio n1 n2 ≤ max (max (simRatio n0 n1) (simRatio n0 n2)) (simRatio n1 n2) :=
    le_max_right _ _
  have hmean : (simRatio n0 n1 + simRatio n0 n2 + simRatio n1 n2) / 3 ≤
      max (max (simRatio n0 n1) (simRatio n0 n2)) (simRatio n1 n2) := by
    rw [div_le_iff (by norm_num : (0:ℚ) < 3)]
    linarith
  refine ⟨hmean, ?_, ?_⟩
  · rw [compute_confidence_triple]
    have hup := roundTo_le 1 ((simRatio n0 n1 + simRatio n0 n2 + simRatio n1 n2) / 3 * 100)
    have hlow := le_roundTo 2
      (max (max (simRatio n0 n1) (simRatio n0 n2)) (simRatio n1 n2) * 100)
    have hscale : (simRatio n0 n1 + simRatio n0 n2 + simRatio n1 n2) / 3 * 100 ≤
        max (max (simRatio n0 n1) (simRatio n0 n2)) (simRatio n1 n2) * 100 :=
      mul_le_mul_of_nonneg_right hmean (by norm_num)
    have h20 : (1:ℚ) / (2 * 10 ^ 1) = 1/20 := by norm_num
    have h200 : (1:ℚ) / (2 * 10 ^ 2) = 1/200 := by norm_num
    unfold longConfNames match_score
    rw [h20] at hup
    rw [h200] at hlow
    linarith
  · rw [compute_confidence_pair]
    have h01' : simRatio n0 n1 ≤
        max (max (simRatio n0 n1) (simRatio n0 "N/A")) (simRatio n1 "N/A") :=
      le_trans (le_max_left _ _) (le_max_left _ _)
    have hup := roundTo_le 1 (simRatio n0 n1 * 100)
    have hlow := le_roundTo 2
      (max (max (simRatio n0 n1) (simRatio n0 "N/A")) (simRatio n1 "N/A") * 100)
    have hscale : simRatio n0 n1 * 100 ≤
        max (max (simRatio n0 n1) (simRatio n0 "N/A")) (simRatio n1 "N/A") * 100 :=
      mul_le_mul_of_nonneg_right h01' (by norm_num)
    have h20 : (1:ℚ) / (2 * 10 ^ 1) = 1/20 := by norm_num
    have h200 : (1:ℚ) / (2 * 10 ^ 2) = 1/200 := by norm_num
    unfold longConfNames match_score
    rw [h20] at hup
    rw [h200] at hlow
    linarith

/-! Claim C8: confidence = ratio scaled and rounded to two decimals. -/

/-- Concrete short-form table for the C8 counterexample. -/
def c8input : List Listing :=
  prepareShort "2B" [⟨"a", some 1, some "k"⟩] ++
    prepareShort "BTECH" [⟨"ab", some 2, some "k"⟩]

/-- C8 counterexample: the SHORT pipeline rounds to ONE decimal place
(66.7), not two: its reported confidence differs from the ratio scaled by
100 and rounded to two decimals (66.67). -/
theorem c8_counterexample_one_decimal :
    shortEmitted c8input "k" ∧
    shortConfidence (shortGroup c8input "k") = 667/10 ∧
    roundTo 2 (simRatio "a" "ab" * 100) = 6667/100 ∧
    shortConfidence (shortGroup c8input "k") ≠ roundTo 2 (simRatio "a" "ab" * 100) := by
  have hm1 : matchTotal "a".data "ab".data = 1 := by decide
  have hr1 : simRatio "a" "ab" = 2/3 := by
    have hla : ("a" : String).length = 1 := by decide
    have hlb : ("ab" : String).length = 2 := by decide
    unfold simRatio
    rw [if_neg (by decide), hm1, hla, hlb]
    norm_num
  have h23 : (2/3 : ℚ) * 100 = 200/3 := by norm_num
  have hshort : shortConfidence (shortGroup c8input "k") = 667/10 := by
    have hg : (shortGroup c8input "k").map Listing.name = ["a", "ab"] := by decide
    unfold shortConfidence
    rw [hg, compute_confidence_pair, hr1, h23, roundTo_two_thirds_scaled_1]
  have h2dp : roundTo 2 (simRatio "a" "ab" * 100) = 6667/100 := by
    rw [hr1, h23, roundTo_two_thirds_scaled_2]
  refine ⟨by decide, hshort, h2dp, ?_⟩
  rw [hshort, h2dp]
  norm_num

/-- C8 (amended): the similarity ratio always lies in `[0, 1]` and both
pipelines report `100 × (aggregated ratio)` rounded — but the long one to
TWO decimals and the short one to ONE; consequently every confidence lies
in `[0, 100]`. -/
theorem c8_ratio_range_and_rounding :
    (∀ a b : String, 0 ≤ simRatio a b ∧ simRatio a b ≤ 1) ∧
    (∀ names : List String, 0 ≤ compute_confidence names ∧
      compute_confidence names ≤ 100) ∧
    (∀ n0 n1 n2 : String, 0 ≤ longConfNames n0 n1 n2 ∧ longConfNames n0 n1 n2 ≤ 100) ∧
    (∀ g : List Listing, 0 ≤ fallbackConfidence g ∧ fallbackConfidence g ≤ 100) ∧
    (∀ a b : String, compute_confidence [a, b] = roundTo 1 (simRatio a b * 100)) :=
  ⟨fun a b => ⟨simRatio_nonneg a b, simRatio_le_one a b⟩,
    fun names => ⟨compute_confidence_nonneg names, compute_confidence_le_hundred names⟩,
    fun n0 n1 n2 => ⟨longConfNames_nonneg n0 n1 n2, longConfNames_le_hundred n0 n1 n2⟩,
    fun _ => ⟨longConfNames_nonneg _ _ _, longConfNames_le_hundred _ _ _⟩,
    compute_confidence_pair⟩
